import Mathlib

/-!
Verification of the n-body simulation engine (rotating-frame leapfrog variant).

The definitions below are a shallow embedding of the Python source:
machine floats are modelled as real numbers, numpy 3-vectors as functions
`Fin 3 → ℝ`, and the in-place mutation of the body list as explicit state
passing.  The run that would raise an `IndexError` in Python (fewer than two
bodies when deriving the frame's angular velocity) is modelled by an
`Option`-valued result together with the body list as it stands at the
point of failure.
-/

/-- Vectors of three real components, modelling numpy arrays of shape (3,). -/
abbrev Vec3 := Fin 3 → ℝ

/-- Cross product of two 3-vectors, modelling `np.cross`. -/
def cross (a b : Vec3) : Vec3 :=
  ![a 1 * b 2 - a 2 * b 1, a 2 * b 0 - a 0 * b 2, a 0 * b 1 - a 1 * b 0]

/-- Euclidean norm of a 3-vector, modelling `np.linalg.norm`. -/
noncomputable def norm3 (v : Vec3) : ℝ :=
  Real.sqrt (v 0 ^ 2 + v 1 ^ 2 + v 2 ^ 2)

/-- Componentwise division of a vector by a scalar, as numpy broadcasts `/`. -/
noncomputable def vdiv (v : Vec3) (c : ℝ) : Vec3 := fun m => v m / c

/-- A point mass, modelling class `Body` of `Rnbody.py`. -/
@[ext]
structure Body where
  mass : ℝ
  position : Vec3
  velocity : Vec3

/-- Placeholder used for out-of-range list reads; the loops of the source
only ever index within range, so it never influences a result. -/
def dummyBody : Body := ⟨0, 0, 0⟩

/-- Contribution of body `bj` to the force on body `bi`: the summand
`G * bodies[i].mass * bodies[j].mass * r / np.linalg.norm(r)**3`
of `compute_forces`. -/
noncomputable def forceTerm (G : ℝ) (bi bj : Body) : Vec3 :=
  vdiv ((G * bi.mass * bj.mass) • (bj.position - bi.position))
    (norm3 (bj.position - bi.position) ^ 3)

/-- Inner loop of `compute_forces`: starting from `np.zeros(3)`, add the
pair term for every `j ≠ i`. -/
noncomputable def forceOn (G : ℝ) (bodies : List Body) (i : ℕ) : Vec3 :=
  (List.range bodies.length).foldl
    (fun force j =>
      if i ≠ j then
        force + forceTerm G (bodies.getD i dummyBody) (bodies.getD j dummyBody)
      else force)
    0

/-- Model of `compute_forces`, parametrised by the gravitational constant so
that it covers both modules (`Rnbody.py` uses `G = 1`, `Integrator.py` uses
the physical value). -/
noncomputable def compute_forcesG (G : ℝ) (bodies : List Body) : List Vec3 :=
  (List.range bodies.length).map (forceOn G bodies)

/-- Model of `compute_forces` of `Rnbody.py`, where `G = 1`. -/
noncomputable def compute_forces (bodies : List Body) : List Vec3 :=
  compute_forcesG 1 bodies

/-- Initial half-kick of `solve_n_body_problem`:
`bodies[i].velocity += (ini_forces[i] / bodies[i].mass) * (dt / 2)`. -/
noncomputable def halfKick (bodies : List Body) (dt : ℝ) : List Body :=
  let iniForces := compute_forces bodies
  (List.range bodies.length).map (fun i =>
    let b := bodies.getD i dummyBody
    { b with velocity := b.velocity + fun m => iniForces.getD i 0 m / b.mass * (dt / 2) })

/-- Model of `integrate` of `Rnbody.py`: drift every position, recompute the
forces, then per body kick the velocity and subtract the Coriolis and
centrifugal corrections, exactly in the order of the source. -/
noncomputable def integrate (bodies : List Body) (dt : ℝ) (omega : Vec3) : List Body :=
  let drifted := bodies.map (fun b => { b with position := b.position + dt • b.velocity })
  let forces := compute_forces drifted
  (List.range drifted.length).map (fun i =>
    let b := drifted.getD i dummyBody
    let v1 : Vec3 := b.velocity + fun m => forces.getD i 0 m / b.mass * dt
    let v2 : Vec3 := v1 - fun m => 2 * cross omega v1 m * dt
    let v3 : Vec3 := v2 - fun m => cross omega (cross omega b.position) m * dt
    { b with velocity := v3 })

/-- Total mass accumulator at the top of `solve_n_body_problem`. -/
def totalMass (bodies : List Body) : ℝ :=
  bodies.foldl (fun acc b => acc + b.mass) 0

/-- Centre-of-mass position of `solve_n_body_problem`: accumulate
`bodies[i].mass * current_r[i]` and divide by the total mass. -/
noncomputable def cmPos (bodies : List Body) (totM : ℝ) : Vec3 :=
  vdiv (bodies.foldl (fun acc b => acc + b.mass • b.position) 0) totM

/-- Stepping loop of `solve_n_body_problem`: each iteration first records
the current positions (absolute and centre-of-mass-reduced), then calls
`integrate`.  Returns the two recorded trajectories and the final bodies. -/
noncomputable def simLoop (dt : ℝ) (omega : Vec3) (totM : ℝ) :
    List Body → ℕ → List (List Vec3) × List (List Vec3) × List Body
  | bs, 0 => ([], [], bs)
  | bs, steps + 1 =>
    let snapAbs := bs.map (fun b => b.position)
    let rcm := cmPos bs totM
    let snapCM := bs.map (fun b => b.position - rcm)
    let rest := simLoop dt omega totM (integrate bs dt omega) steps
    (snapAbs :: rest.1, snapCM :: rest.2.1, rest.2.2)

/-- Angular velocity of the rotating frame, derived in
`solve_n_body_problem` from the two reference bodies:
`omega_vector = [0, 0, sqrt(G * (m1 + m2) / r ** 3)]` with `G = 1`. -/
noncomputable def omegaVec (b0 b1 : Body) : Vec3 :=
  ![0, 0, Real.sqrt (1 * (b0.mass + b1.mass) / norm3 (b0.position - b1.position) ^ 3)]

/-- Row-major flattening of a recorded trajectory, modelling
`np.array(r_cm_lst).flatten()`: steps outermost, then bodies, then axes. -/
def flattenTraj (traj : List (List Vec3)) : List ℝ :=
  (traj.map (fun snap => (snap.map (fun v => [v 0, v 1, v 2])).flatten)).flatten

/-- Model of `solve_n_body_problem` of `Rnbody.py`.  The first component is
the returned flattened centre-of-mass trajectory, `none` standing for the
`IndexError` Python raises at `bodies[1].mass` when fewer than two bodies
are supplied; the second component is the body list as left behind
(half-kicked in every case, further advanced only when the run proceeds). -/
noncomputable def solve_n_body_problem (bodies : List Body) (dt : ℝ) (steps : ℕ) :
    Option (List ℝ) × List Body :=
  let totM := totalMass bodies
  let kicked := halfKick bodies dt
  if 2 ≤ kicked.length then
    let omega := omegaVec (kicked.getD 0 dummyBody) (kicked.getD 1 dummyBody)
    let res := simLoop dt omega totM kicked steps
    (some (flattenTraj res.2.1), res.2.2)
  else (none, kicked)

/-- Angular-velocity vector a run on `bodies` actually uses: `omegaVec`
evaluated on the half-kicked reference bodies. -/
noncomputable def omegaRun (bodies : List Body) (dt : ℝ) : Vec3 :=
  omegaVec ((halfKick bodies dt).getD 0 dummyBody) ((halfKick bodies dt).getD 1 dummyBody)

/-- Iterated application of `integrate`, giving the body state at the start
of iteration `k` of the stepping loop. -/
noncomputable def integrateIter (dt : ℝ) (omega : Vec3) (bs : List Body) : ℕ → List Body
  | 0 => bs
  | k + 1 => integrate (integrateIter dt omega bs k) dt omega

/-- Indices selected by the masks of `plot_helper`: positions `j` of the
flat array with `j % p == c` (for body `i` and axis `a`, the source sets
the mask at `j + 3 * i` for every `j` with `j % (3 * n) == a`, which selects
exactly the indices congruent to `3 * i + a` modulo `3 * n`). -/
def selIdx (len c p : ℕ) : List ℕ :=
  (List.range len).filter (fun j => j % p == c)

/-- Coordinate-series extraction of `plot_helper`, generalised from the two
axes the source plots to an arbitrary axis offset `a`: stride `3 * n`,
offset `3 * b + a`. -/
def extract_axis (flat : List ℝ) (n b a : ℕ) : List ℝ :=
  (selIdx flat.length (3 * b + a) (3 * n)).map (fun j => flat.getD j 0)

/-- Separation distances of `compute_2_body_period`:
`np.linalg.norm(each_time[1] - each_time[0])` for every recorded step. -/
noncomputable def bodyDistances (r_arr : List (List Vec3)) : List ℝ :=
  r_arr.map (fun snap => norm3 (snap.getD 1 0 - snap.getD 0 0))

/-- Strict interior local minimum of a sequence of distances. -/
def isStrictLocalMin (d : List ℝ) (i : ℕ) : Prop :=
  0 < i ∧ i + 1 < d.length ∧ d.getD i 0 < d.getD (i - 1) 0 ∧ d.getD i 0 < d.getD (i + 1) 0

/-- Model of `scipy.signal.argrelextrema(d_arr, np.less)[0]`: the indices
whose value is strictly below both neighbours (with scipy's default
`order=1` and clipped boundaries, endpoints never qualify). -/
noncomputable def argrelextremaLess (d : List ℝ) : List ℕ :=
  (List.range d.length).filter (fun i =>
    decide (0 < i) && decide (i + 1 < d.length) &&
    decide (d.getD i 0 < d.getD (i - 1) 0) && decide (d.getD i 0 < d.getD (i + 1) 0))

/-- Model of `compute_2_body_period` of `Rnbody.py`: `some period` models
the `print` of the period, `none` the insufficient-data message. -/
noncomputable def compute_2_body_period (r_arr : List (List Vec3)) (dt : ℝ) : Option ℝ :=
  let minTimes := argrelextremaLess (bodyDistances r_arr)
  if 1 < minTimes.length then
    some ((((minTimes.getD 1 0 : ℤ) - (minTimes.getD 0 0 : ℤ) : ℤ) : ℝ) * dt)
  else none

/-- Phase-staged rendering of the spec's step contract 4.3 Variant B: drift
all bodies, recompute forces, kick all bodies, apply the Coriolis correction
to all bodies, then the centrifugal correction to all bodies. -/
noncomputable def stepSpec (bodies : List Body) (dt : ℝ) (omega : Vec3) : List Body :=
  let drifted := bodies.map (fun b => { b with position := b.position + dt • b.velocity })
  let forces := compute_forces drifted
  let kicked := (List.range drifted.length).map (fun i =>
    let b := drifted.getD i dummyBody
    { b with velocity := b.velocity + (dt / b.mass) • forces.getD i 0 })
  let coriolisDone := kicked.map (fun b =>
    { b with velocity := b.velocity - (2 * dt) • cross omega b.velocity })
  coriolisDone.map (fun b =>
    { b with velocity := b.velocity - dt • cross omega (cross omega b.position) })

/-! ### Concrete fixtures used by the closed instances below -/

/-- Two unit-mass bodies at distinct positions. -/
def wBodyA : Body := ⟨1, ![0, 0, 0], ![0, 0, 0]⟩

/-- Second fixture body, one unit away from `wBodyA`. -/
def wBodyB : Body := ⟨1, ![1, 0, 0], ![0, 0, 0]⟩

/-- A two-body configuration with pairwise distinct positions. -/
def wBodies : List Body := [wBodyA, wBodyB]

/-- One-step two-body trajectory used as a closed instance. -/
def wTraj : List (List Vec3) := [[![0, 1, 2], ![3, 4, 5]]]

/-- A single body: the configuration on which C2's claimed `n ≥ 1` fails. -/
def c2Solo : List Body := [⟨1, ![0, 0, 0], ![0, 0, 0]⟩]

/-- Two bodies, one with negative mass, stepped with a negative `dt`: an
input the claimed configuration validation should reject. -/
def c3Bad : List Body := [⟨-1, ![0, 0, 0], ![0, 0, 0]⟩, ⟨1, ![1, 0, 0], ![0, 0, 0]⟩]

/-! ### Basic list and fold lemmas -/

theorem getD_map_range {α : Type} (f : ℕ → α) {n i : ℕ} (h : i < n) (d : α) :
    ((List.range n).map f).getD i d = f i := by
  rw [List.getD_eq_getElem?_getD, List.getElem?_map, List.getElem?_range h]
  rfl

theorem getD_map_lt {α β : Type} (f : α → β) (l : List α) {i : ℕ} (h : i < l.length)
    (d : α) (e : β) :
    (l.map f).getD i e = f (l.getD i d) := by
  rw [List.getD_eq_getElem?_getD, List.getElem?_map, List.getElem?_eq_getElem h,
    List.getD_eq_getElem?_getD, List.getElem?_eq_getElem h]
  rfl

theorem foldl_ite_add {M α : Type} [AddCommMonoid M] (P : α → Prop) [DecidablePred P]
    (f : α → M) :
    ∀ (l : List α) (x : M),
      l.foldl (fun acc j => if P j then acc + f j else acc) x
        = x + (l.map (fun j => if P j then f j else 0)).sum := by
  intro l
  induction l with
  | nil => intro x; simp
  | cons a l ih =>
    intro x
    by_cases h : P a <;> simp [h, ih, add_assoc]

theorem foldl_add_eq {M α : Type} [AddCommMonoid M] (f : α → M) :
    ∀ (l : List α) (x : M),
      l.foldl (fun acc j => acc + f j) x = x + (l.map f).sum := by
  intro l
  induction l with
  | nil => intro x; simp
  | cons a l ih => intro x; simp [ih, add_assoc]

theorem sum_map_range {M : Type} [AddCommMonoid M] (f : ℕ → M) (n : ℕ) :
    ((List.range n).map f).sum = ∑ i ∈ Finset.range n, f i := by
  induction n with
  | zero => simp
  | succ n ih => rw [List.range_succ, List.map_append, List.sum_append,
      Finset.sum_range_succ, ih]; simp

theorem sum_range_getD {M : Type} [AddCommMonoid M] (f : Body → M) :
    ∀ l : List Body,
      ∑ i ∈ Finset.range l.length, f (l.getD i dummyBody) = (l.map f).sum := by
  intro l
  induction l with
  | nil => simp
  | cons b l ih =>
    rw [List.length_cons, Finset.sum_range_succ']
    simp only [List.getD_cons_succ, List.getD_cons_zero, ih, List.map_cons, List.sum_cons]
    exact add_comm _ _

/-! ### Length and access lemmas for the embedded operations -/

theorem compute_forcesG_length (G : ℝ) (bodies : List Body) :
    (compute_forcesG G bodies).length = bodies.length := by
  simp [compute_forcesG]

theorem compute_forcesG_getD (G : ℝ) (bodies : List Body) {i : ℕ} (h : i < bodies.length) :
    (compute_forcesG G bodies).getD i 0 = forceOn G bodies i := by
  unfold compute_forcesG
  exact getD_map_range _ h _

theorem halfKick_length (bodies : List Body) (dt : ℝ) :
    (halfKick bodies dt).length = bodies.length := by
  simp [halfKick]

theorem halfKick_getD (bodies : List Body) (dt : ℝ) {i : ℕ} (h : i < bodies.length) :
    (halfKick bodies dt).getD i dummyBody =
      { bodies.getD i dummyBody with
        velocity := (bodies.getD i dummyBody).velocity +
          fun m => (compute_forces bodies).getD i 0 m /
            (bodies.getD i dummyBody).mass * (dt / 2) } := by
  unfold halfKick
  exact getD_map_range _ h _

theorem integrate_length (bodies : List Body) (dt : ℝ) (omega : Vec3) :
    (integrate bodies dt omega).length = bodies.length := by
  simp [integrate]

theorem integrate_getD (bodies : List Body) (dt : ℝ) (omega : Vec3) {i : ℕ}
    (h : i < bodies.length) :
    (integrate bodies dt omega).getD i dummyBody =
      (let drifted := bodies.map (fun b => { b with position := b.position + dt • b.velocity })
      let forces := compute_forces drifted
      let b := drifted.getD i dummyBody
      let v1 : Vec3 := b.velocity + fun m => forces.getD i 0 m / b.mass * dt
      let v2 : Vec3 := v1 - fun m => 2 * cross omega v1 m * dt
      let v3 : Vec3 := v2 - fun m => cross omega (cross omega b.position) m * dt
      { b with velocity := v3 }) := by
  unfold integrate
  exact getD_map_range _ (by simpa using h) _

theorem integrate_getD_mass (bodies : List Body) (dt : ℝ) (omega : Vec3) {i : ℕ}
    (h : i < bodies.length) :
    ((integrate bodies dt omega).getD i dummyBody).mass
      = (bodies.getD i dummyBody).mass := by
  rw [integrate_getD bodies dt omega h]
  simp only []
  rw [getD_map_lt _ bodies h dummyBody]

theorem integrate_getD_position (bodies : List Body) (dt : ℝ) (omega : Vec3) {i : ℕ}
    (h : i < bodies.length) :
    ((integrate bodies dt omega).getD i dummyBody).position
      = (bodies.getD i dummyBody).position + dt • (bodies.getD i dummyBody).velocity := by
  rw [integrate_getD bodies dt omega h]
  simp only []
  rw [getD_map_lt _ bodies h dummyBody]

theorem integrateIter_length (dt : ℝ) (omega : Vec3) (bs : List Body) (k : ℕ) :
    (integrateIter dt omega bs k).length = bs.length := by
  induction k with
  | zero => rfl
  | succ k ih => rw [integrateIter, integrate_length, ih]

theorem integrateIter_shift (dt : ℝ) (omega : Vec3) (bs : List Body) (k : ℕ) :
    integrateIter dt omega (integrate bs dt omega) k = integrateIter dt omega bs (k + 1) := by
  induction k with
  | zero => rfl
  | succ k ih => rw [integrateIter, ih]; rfl

theorem integrateIter_getD_mass (dt : ℝ) (omega : Vec3) (bs : List Body) (k : ℕ) {i : ℕ}
    (h : i < bs.length) :
    ((integrateIter dt omega bs k).getD i dummyBody).mass
      = (bs.getD i dummyBody).mass := by
  induction k with
  | zero => rfl
  | succ k ih =>
    rw [integrateIter, integrate_getD_mass _ _ _ (by rw [integrateIter_length]; exact h), ih]

/-! ### Total mass -/

theorem totalMass_eq (bodies : List Body) :
    totalMass bodies = (bodies.map (fun b => b.mass)).sum := by
  unfold totalMass
  rw [foldl_add_eq (fun b : Body => b.mass) bodies 0, zero_add]

theorem totalMass_eq_sum_range (bodies : List Body) :
    totalMass bodies = ∑ i ∈ Finset.range bodies.length, (bodies.getD i dummyBody).mass := by
  rw [totalMass_eq, sum_range_getD]

theorem totalMass_integrate (bodies : List Body) (dt : ℝ) (omega : Vec3) :
    totalMass (integrate bodies dt omega) = totalMass bodies := by
  rw [totalMass_eq_sum_range, totalMass_eq_sum_range, integrate_length]
  refine Finset.sum_congr rfl fun i hi => ?_
  exact integrate_getD_mass bodies dt omega (Finset.mem_range.mp hi)

theorem totalMass_halfKick (bodies : List Body) (dt : ℝ) :
    totalMass (halfKick bodies dt) = totalMass bodies := by
  rw [totalMass_eq_sum_range, totalMass_eq_sum_range, halfKick_length]
  refine Finset.sum_congr rfl fun i hi => ?_
  rw [halfKick_getD bodies dt (Finset.mem_range.mp hi)]

theorem totalMass_integrateIter (dt : ℝ) (omega : Vec3) (bs : List Body) (k : ℕ) :
    totalMass (integrateIter dt omega bs k) = totalMass bs := by
  induction k with
  | zero => rfl
  | succ k ih => rw [integrateIter, totalMass_integrate, ih]

/-! ### Stepping-loop structure -/

theorem simLoop_fst_length (dt : ℝ) (omega : Vec3) (totM : ℝ) :
    ∀ (steps : ℕ) (bs : List Body), (simLoop dt omega totM bs steps).1.length = steps := by
  intro steps
  induction steps with
  | zero => intro bs; rfl
  | succ s ih => intro bs; rw [simLoop]; simpa using ih (integrate bs dt omega)

theorem simLoop_cm_length (dt : ℝ) (omega : Vec3) (totM : ℝ) :
    ∀ (steps : ℕ) (bs : List Body), (simLoop dt omega totM bs steps).2.1.length = steps := by
  intro steps
  induction steps with
  | zero => intro bs; rfl
  | succ s ih => intro bs; rw [simLoop]; simpa using ih (integrate bs dt omega)

theorem simLoop_final (dt : ℝ) (omega : Vec3) (totM : ℝ) :
    ∀ (steps : ℕ) (bs : List Body),
      (simLoop dt omega totM bs steps).2.2 = integrateIter dt omega bs steps := by
  intro steps
  induction steps with
  | zero => intro bs; rfl
  | succ s ih =>
    intro bs
    rw [simLoop]
    simpa [integrateIter_shift] using ih (integrate bs dt omega)

theorem simLoop_fst_getD (dt : ℝ) (omega : Vec3) (totM : ℝ) :
    ∀ (steps k : ℕ) (bs : List Body), k < steps →
      (simLoop dt omega totM bs steps).1.getD k []
        = (integrateIter dt omega bs k).map (fun b => b.position) := by
  intro steps
  induction steps with
  | zero => intro k bs hk; exact absurd hk (Nat.not_lt_zero k)
  | succ s ih =>
    intro k bs hk
    rw [simLoop]
    match k with
    | 0 => rfl
    | k + 1 =>
      simp only [List.getD_cons_succ]
      rw [ih k (integrate bs dt omega) (Nat.lt_of_succ_lt_succ hk), integrateIter_shift]

theorem simLoop_cm_getD (dt : ℝ) (omega : Vec3) (totM : ℝ) :
    ∀ (steps k : ℕ) (bs : List Body), k < steps →
      (simLoop dt omega totM bs steps).2.1.getD k []
        = (integrateIter dt omega bs k).map
            (fun b => b.position - cmPos (integrateIter dt omega bs k) totM) := by
  intro steps
  induction steps with
  | zero => intro k bs hk; exact absurd hk (Nat.not_lt_zero k)
  | succ s ih =>
    intro k bs hk
    rw [simLoop]
    match k with
    | 0 => rfl
    | k + 1 =>
      simp only [List.getD_cons_succ]
      rw [ih k (integrate bs dt omega) (Nat.lt_of_succ_lt_succ hk), integrateIter_shift]

/-! ### Force-sum characterisation -/

theorem forceOn_eq_sum (G : ℝ) (bodies : List Body) (i : ℕ) :
    forceOn G bodies i
      = ∑ j ∈ (Finset.range bodies.length).erase i,
          forceTerm G (bodies.getD i dummyBody) (bodies.getD j dummyBody) := by
  unfold forceOn
  rw [foldl_ite_add (fun j => i ≠ j)
    (fun j => forceTerm G (bodies.getD i dummyBody) (bodies.getD j dummyBody))
    (List.range bodies.length) 0, zero_add, sum_map_range, ← Finset.sum_filter,
    Finset.filter_ne]

theorem forceTerm_eq_smul (G : ℝ) (bi bj : Body) :
    forceTerm G bi bj
      = (G * bi.mass) •
          ((bj.mass / norm3 (bj.position - bi.position) ^ 3) • (bj.position - bi.position)) := by
  funext m
  simp only [forceTerm, vdiv, Pi.smul_apply, smul_eq_mul]
  ring

/-! ### Centre-of-mass algebra -/

theorem cmPos_numerator (bodies : List Body) (totM : ℝ) :
    cmPos bodies totM
      = vdiv ((bodies.map (fun b => b.mass • b.position)).sum) totM := by
  unfold cmPos
  rw [foldl_add_eq (fun b : Body => b.mass • b.position) bodies 0, zero_add]

theorem masswt_snapCM_sum_zero (bs : List Body) (M : ℝ) (hM : M ≠ 0)
    (hMs : totalMass bs = M) :
    ∑ i ∈ Finset.range bs.length,
        (bs.getD i dummyBody).mass • ((bs.getD i dummyBody).position - cmPos bs M)
      = (0 : Vec3) := by
  have hsum :
      ∑ i ∈ Finset.range bs.length, (bs.getD i dummyBody).mass • (bs.getD i dummyBody).position
        = (bs.map (fun b => b.mass • b.position)).sum := by
    rw [← sum_range_getD (fun b => b.mass • b.position) bs]
  have hmass :
      ∑ i ∈ Finset.range bs.length, (bs.getD i dummyBody).mass = M := by
    rw [← totalMass_eq_sum_range, hMs]
  calc
    ∑ i ∈ Finset.range bs.length,
        (bs.getD i dummyBody).mass • ((bs.getD i dummyBody).position - cmPos bs M)
      = (∑ i ∈ Finset.range bs.length,
          (bs.getD i dummyBody).mass • (bs.getD i dummyBody).position)
        - (∑ i ∈ Finset.range bs.length, (bs.getD i dummyBody).mass) • cmPos bs M := by
        rw [Finset.sum_smul]
        rw [← Finset.sum_sub_distrib]
        refine Finset.sum_congr rfl fun i _ => ?_
        rw [smul_sub]
    _ = (0 : Vec3) := by
        rw [hsum, hmass, cmPos_numerator]
        funext m
        simp only [Pi.sub_apply, vdiv, Pi.smul_apply, smul_eq_mul, Pi.zero_apply]
        rw [mul_div_cancel₀ _ hM]
        ring

/-! ### Run-level unfolding -/

theorem solve_eq_of_two (bodies : List Body) (dt : ℝ) (steps : ℕ) (h2 : 2 ≤ bodies.length) :
    solve_n_body_problem bodies dt steps
      = (some (flattenTraj
            ((simLoop dt (omegaRun bodies dt) (totalMass bodies) (halfKick bodies dt) steps).2.1)),
         (simLoop dt (omegaRun bodies dt) (totalMass bodies) (halfKick bodies dt) steps).2.2) := by
  have hg : 2 ≤ (halfKick bodies dt).length := by rw [halfKick_length]; exact h2
  unfold solve_n_body_problem omegaRun
  rw [if_pos hg]

theorem solve_eq_of_lt_two (bodies : List Body) (dt : ℝ) (steps : ℕ)
    (h2 : bodies.length < 2) :
    solve_n_body_problem bodies dt steps = (none, halfKick bodies dt) := by
  have hg : ¬ 2 ≤ (halfKick bodies dt).length := by rw [halfKick_length]; omega
  unfold solve_n_body_problem
  rw [if_neg hg]

/-! ### The per-step state machine refines the phase-staged spec -/

theorem integrate_eq_stepSpec (bodies : List Body) (dt : ℝ) (omega : Vec3) :
    integrate bodies dt omega = stepSpec bodies dt omega := by
  simp only [integrate, stepSpec, List.map_map]
  refine congrArg (fun f => List.map f (List.range
    (bodies.map (fun b => { b with position := b.position + dt • b.velocity })).length)) ?_
  funext j
  simp only [Function.comp]
  refine Body.ext rfl rfl ?_
  set drifted := bodies.map (fun b => { b with position := b.position + dt • b.velocity })
  set forces := compute_forces drifted
  set b := drifted.getD j dummyBody
  have hv1 : (b.velocity + fun m => forces.getD j 0 m / b.mass * dt)
      = b.velocity + (dt / b.mass) • forces.getD j 0 := by
    funext m
    simp only [Pi.add_apply, Pi.smul_apply, smul_eq_mul]
    ring
  rw [← hv1]
  set v1 : Vec3 := b.velocity + fun m => forces.getD j 0 m / b.mass * dt
  have hv2 : (v1 - fun m => 2 * cross omega v1 m * dt)
      = v1 - (2 * dt) • cross omega v1 := by
    funext m
    simp only [Pi.sub_apply, Pi.smul_apply, smul_eq_mul]
    ring
  rw [← hv2]
  set v2 : Vec3 := v1 - fun m => 2 * cross omega v1 m * dt
  funext m
  simp only [Pi.sub_apply, Pi.smul_apply, smul_eq_mul]
  ring

/-! ### Flattening and extraction -/

theorem snapFlat_length (snap : List Vec3) :
    ((snap.map (fun v => [v 0, v 1, v 2])).flatten).length = 3 * snap.length := by
  induction snap with
  | nil => rfl
  | cons v rest ih =>
    simp only [List.map_cons, List.flatten_cons, List.length_append, ih, List.length_cons,
      List.length_nil]
    ring

theorem snapFlat_getD (snap : List Vec3) :
    ∀ (b a : ℕ) (ha : a < 3), b < snap.length →
      ((snap.map (fun v => [v 0, v 1, v 2])).flatten).getD (3 * b + a) 0
        = snap.getD b 0 ⟨a, ha⟩ := by
  induction snap with
  | nil => intro b a ha hb; simp at hb
  | cons v rest ih =>
    intro b a ha hb
    simp only [List.map_cons, List.flatten_cons]
    match b with
    | 0 =>
      rw [Nat.mul_zero, Nat.zero_add,
        List.getD_append _ _ _ _ (by simpa using ha)]
      interval_cases a <;> rfl
    | b + 1 =>
      have harith : 3 * (b + 1) + a = 3 + (3 * b + a) := by ring
      rw [harith, List.getD_append_right _ _ _ _ (by simp)]
      simp only [List.length_cons, List.length_nil]
      rw [show 3 + (3 * b + a) - (0 + 1 + 1 + 1) = 3 * b + a by omega]
      rw [List.getD_cons_succ]
      exact ih b a ha (by simpa using hb)

theorem flattenTraj_cons (S : List Vec3) (T : List (List Vec3)) :
    flattenTraj (S :: T) = (S.map (fun v => [v 0, v 1, v 2])).flatten ++ flattenTraj T := by
  simp [flattenTraj]

theorem flattenTraj_length {n : ℕ} :
    ∀ T : List (List Vec3), (∀ s ∈ T, s.length = n) →
      (flattenTraj T).length = T.length * (3 * n) := by
  intro T
  induction T with
  | nil => intro _; simp [flattenTraj]
  | cons S T ih =>
    intro hw
    rw [flattenTraj_cons, List.length_append, snapFlat_length,
      hw S (List.mem_cons_self S T), ih (fun s hs => hw s (List.mem_cons_of_mem S hs)),
      List.length_cons]
    ring

theorem flattenTraj_getD {n : ℕ} (b a : ℕ) (hb : b < n) (ha : a < 3) :
    ∀ (T : List (List Vec3)) (k : ℕ), (∀ s ∈ T, s.length = n) → k < T.length →
      (flattenTraj T).getD (3 * n * k + (3 * b + a)) 0 = (T.getD k []).getD b 0 ⟨a, ha⟩ := by
  intro T
  induction T with
  | nil => intro k _ hk; simp at hk
  | cons S T ih =>
    intro k hw hk
    have hS : S.length = n := hw S (List.mem_cons_self S T)
    rw [flattenTraj_cons]
    match k with
    | 0 =>
      rw [Nat.mul_zero, Nat.zero_add,
        List.getD_append _ _ _ _ (by rw [snapFlat_length, hS]; omega)]
      rw [List.getD_cons_zero]
      exact snapFlat_getD S b a ha (by omega)
    | k + 1 =>
      have harith : 3 * n * (k + 1) + (3 * b + a) = 3 * n + (3 * n * k + (3 * b + a)) := by ring
      rw [harith, List.getD_append_right _ _ _ _ (by rw [snapFlat_length, hS]; omega)]
      rw [snapFlat_length, hS, Nat.add_sub_cancel_left, List.getD_cons_succ]
      exact ih k (fun s hs => hw s (List.mem_cons_of_mem S hs)) (by simpa using hk)

theorem filter_beq_range (c : ℕ) :
    ∀ p : ℕ, c < p → (List.range p).filter (fun j => j == c) = [c] := by
  intro p
  induction p with
  | zero => intro h; omega
  | succ q ih =>
    intro h
    rw [List.range_succ, List.filter_append]
    by_cases hcq : c < q
    · rw [ih hcq]
      have : ((q : ℕ) == c) = false := by simp [Nat.ne_of_gt hcq]
      simp [List.filter_cons, this]
    · have hce : c = q := by omega
      subst hce
      have hnil : (List.range c).filter (fun j => j == c) = [] := by
        rw [List.filter_eq_nil_iff]
        intro x hx
        simp only [beq_iff_eq]
        exact Nat.ne_of_lt (List.mem_range.mp hx)
      rw [hnil]
      simp [List.filter_cons]

theorem selIdx_add (L c p : ℕ) (hc : c < p) :
    selIdx (p + L) c p = c :: (selIdx L c p).map (fun j => p + j) := by
  unfold selIdx
  rw [List.range_add, List.filter_append]
  have h1 : (List.range p).filter (fun j => j % p == c) = [c] := by
    rw [List.filter_congr (fun x hx => by
      rw [Nat.mod_eq_of_lt (List.mem_range.mp hx)])]
    exact filter_beq_range c p hc
  have h2 : ((List.range L).map (fun x => p + x)).filter (fun j => j % p == c)
      = ((List.range L).filter (fun j => j % p == c)).map (fun x => p + x) := by
    rw [List.filter_map]
    congr 1
    exact List.filter_congr fun x _ => by
      simp only [Function.comp_apply, Nat.add_mod_left]
  rw [h1, h2]
  rfl

/-! ### Further preservation lemmas -/

theorem halfKick_getD_mass (bodies : List Body) (dt : ℝ) {i : ℕ} (h : i < bodies.length) :
    ((halfKick bodies dt).getD i dummyBody).mass = (bodies.getD i dummyBody).mass := by
  rw [halfKick_getD bodies dt h]

theorem halfKick_getD_position (bodies : List Body) (dt : ℝ) {i : ℕ} (h : i < bodies.length) :
    ((halfKick bodies dt).getD i dummyBody).position = (bodies.getD i dummyBody).position := by
  rw [halfKick_getD bodies dt h]

theorem simLoop_zero (dt : ℝ) (omega : Vec3) (totM : ℝ) (bs : List Body) :
    simLoop dt omega totM bs 0 = ([], [], bs) := rfl

theorem simLoop_cm_mem_length (dt : ℝ) (omega : Vec3) (totM : ℝ) :
    ∀ (steps : ℕ) (bs : List Body),
      ∀ s ∈ (simLoop dt omega totM bs steps).2.1, s.length = bs.length := by
  intro steps
  induction steps with
  | zero => intro bs s hs; simp [simLoop] at hs
  | succ n ih =>
    intro bs s hs
    rw [simLoop] at hs
    rcases List.mem_cons.mp hs with h | h
    · rw [h, List.length_map]
    · rw [ih (integrate bs dt omega) s h, integrate_length]

theorem simLoop_cm_unfold (dt : ℝ) (omega : Vec3) (totM : ℝ) :
    ∀ (steps : ℕ) (bs : List Body),
      (simLoop dt omega totM bs steps).2.1
        = (List.range steps).map (fun k =>
            (integrateIter dt omega bs k).map
              (fun b => b.position - cmPos (integrateIter dt omega bs k) totM)) := by
  intro steps
  induction steps with
  | zero => intro bs; rfl
  | succ s ih =>
    intro bs
    have hproj : ∀ (x : List (List Vec3)) (y : List (List Vec3)) (z : List Body),
        ((y, x, z) : List (List Vec3) × List (List Vec3) × List Body).2.1 = x :=
      fun _ _ _ => rfl
    rw [simLoop, hproj, List.range_succ_eq_map, List.map_cons, List.map_map,
      ih (integrate bs dt omega)]
    congr 1
    refine congrArg (fun f => List.map f (List.range s)) ?_
    funext k
    simp only [Function.comp_apply, Nat.succ_eq_add_one, ← integrateIter_shift]

/-! ### Period analysis -/

theorem argrelextremaLess_sorted (d : List ℝ) :
    (argrelextremaLess d).Sorted (· < ·) :=
  List.Pairwise.filter _ (List.pairwise_lt_range d.length)

theorem argrelextremaLess_mem (d : List ℝ) (i : ℕ) :
    i ∈ argrelextremaLess d ↔ isStrictLocalMin d i := by
  unfold argrelextremaLess isStrictLocalMin
  rw [List.mem_filter, List.mem_range]
  simp only [Bool.and_eq_true, decide_eq_true_eq]
  constructor
  · rintro ⟨_, ⟨⟨h1, h2⟩, h3⟩, h4⟩
    exact ⟨h1, h2, h3, h4⟩
  · rintro ⟨h1, h2, h3, h4⟩
    exact ⟨by omega, ⟨⟨h1, h2⟩, h3⟩, h4⟩

theorem wBodies_pairwise :
    List.Pairwise (fun p q => p.position ≠ q.position) wBodies := by
  refine List.pairwise_cons.mpr ⟨?_, List.pairwise_singleton _ _⟩
  intro q hq
  rw [List.mem_singleton] at hq
  subst hq
  intro h
  have h0 := congrFun h 0
  simp only [wBodyA, wBodyB, Matrix.cons_val_zero] at h0
  exact zero_ne_one h0

/-! ### Claims -/

/-- C1: one call to the rotating-frame `integrate(bodies, dt, omega)`
performs exactly, in this order: the drift `x += v*dt` of every body at its
current velocity, the recomputation of the forces at the new positions, the
kick `v += (F/m)*dt`, the subtraction of the Coriolis term `2*(omega × v)*dt`
read at the post-kick pre-correction velocity, then the subtraction of the
centrifugal term `(omega × (omega × x))*dt` read at the post-drift position
(`integrate` equals the phase-staged `stepSpec`); and the enclosing loop
records as snapshot `k` the body positions at the start of iteration `k`,
into both the absolute and the centre-of-mass trajectories. -/
theorem c1_step_order_and_recording (bodies : List Body) (dt : ℝ) (omega : Vec3)
    (h2 : 2 ≤ bodies.length)
    (hd : List.Pairwise (fun p q => p.position ≠ q.position) bodies)
    (bs : List Body) (totM : ℝ) (steps k : ℕ) (hk : k < steps) :
    integrate bodies dt omega = stepSpec bodies dt omega
    ∧ (simLoop dt omega totM bs steps).1.getD k []
        = (integrateIter dt omega bs k).map (fun b => b.position)
    ∧ (simLoop dt omega totM bs steps).2.1.getD k []
        = (integrateIter dt omega bs k).map
            (fun b => b.position - cmPos (integrateIter dt omega bs k) totM) :=
  ⟨integrate_eq_stepSpec bodies dt omega,
   simLoop_fst_getD dt omega totM steps k bs hk,
   simLoop_cm_getD dt omega totM steps k bs hk⟩

theorem c1_witness :
    integrate wBodies 1 ![0, 0, 1] = stepSpec wBodies 1 ![0, 0, 1]
    ∧ (simLoop 1 ![0, 0, 1] 2 wBodies 1).1.getD 0 []
        = (integrateIter 1 ![0, 0, 1] wBodies 0).map (fun b => b.position)
    ∧ (simLoop 1 ![0, 0, 1] 2 wBodies 1).2.1.getD 0 []
        = (integrateIter 1 ![0, 0, 1] wBodies 0).map
            (fun b => b.position - cmPos (integrateIter 1 ![0, 0, 1] wBodies 0) 2) :=
  c1_step_order_and_recording wBodies 1 ![0, 0, 1] (by simp [wBodies]) wBodies_pairwise
    wBodies 2 1 0 (by norm_num)

/-- C4: `compute_forces` returns one 3-vector per body, and the vector for
body `i` equals `G * m_i * Σ_{j≠i} m_j * (r_j - r_i) / |r_j - r_i|^3`. -/
theorem c4_forces_formula (G : ℝ) (bodies : List Body) (i : ℕ)
    (hi : i < bodies.length)
    (hd : List.Pairwise (fun p q => p.position ≠ q.position) bodies) :
    (compute_forcesG G bodies).length = bodies.length
    ∧ (compute_forcesG G bodies).getD i 0
        = (G * (bodies.getD i dummyBody).mass) •
            ∑ j ∈ (Finset.range bodies.length).erase i,
              ((bodies.getD j dummyBody).mass /
                  norm3 ((bodies.getD j dummyBody).position
                    - (bodies.getD i dummyBody).position) ^ 3) •
                ((bodies.getD j dummyBody).position - (bodies.getD i dummyBody).position) := by
  refine ⟨compute_forcesG_length G bodies, ?_⟩
  rw [compute_forcesG_getD G bodies hi, forceOn_eq_sum, Finset.smul_sum]
  exact Finset.sum_congr rfl fun j _ => forceTerm_eq_smul G _ _

theorem c4_witness :
    (compute_forcesG 1 wBodies).length = wBodies.length
    ∧ (compute_forcesG 1 wBodies).getD 0 0
        = (1 * (wBodies.getD 0 dummyBody).mass) •
            ∑ j ∈ (Finset.range wBodies.length).erase 0,
              ((wBodies.getD j dummyBody).mass /
                  norm3 ((wBodies.getD j dummyBody).position
                    - (wBodies.getD 0 dummyBody).position) ^ 3) •
                ((wBodies.getD j dummyBody).position - (wBodies.getD 0 dummyBody).position) :=
  c4_forces_formula 1 wBodies 0 (by simp [wBodies]) wBodies_pairwise

/-- C8: the pairwise contribution of body `j` to the force on body `i`
computed by `compute_forces` is the exact negation of the contribution of
body `i` to the force on body `j` (Newton's third law, term by term). -/
theorem c8_pair_antisymmetry (G : ℝ) (bodies : List Body) (i j : ℕ)
    (hi : i < bodies.length) (hj : j < bodies.length) (hij : i ≠ j)
    (hd : List.Pairwise (fun p q => p.position ≠ q.position) bodies) :
    forceTerm G (bodies.getD i dummyBody) (bodies.getD j dummyBody)
      = - forceTerm G (bodies.getD j dummyBody) (bodies.getD i dummyBody) := by
  have hsym : norm3 ((bodies.getD i dummyBody).position - (bodies.getD j dummyBody).position)
      = norm3 ((bodies.getD j dummyBody).position - (bodies.getD i dummyBody).position) := by
    unfold norm3
    congr 1
    simp only [Pi.sub_apply]
    ring
  funext m
  simp only [forceTerm, vdiv, Pi.neg_apply, Pi.smul_apply, smul_eq_mul, Pi.sub_apply]
  rw [hsym]
  ring

theorem c8_witness :
    forceTerm 1 (wBodies.getD 0 dummyBody) (wBodies.getD 1 dummyBody)
      = - forceTerm 1 (wBodies.getD 1 dummyBody) (wBodies.getD 0 dummyBody) :=
  c8_pair_antisymmetry 1 wBodies 0 1 (by simp [wBodies]) (by simp [wBodies])
    (by norm_num) wBodies_pairwise

/-- C7: for every recorded step of a run, the mass-weighted sum of the
stored centre-of-mass-frame positions is the zero vector; each stored
CM-frame position is the absolute position minus the mass-weighted mean
position of the step's state, with the total mass computed once at start. -/
theorem c7_cm_reduction (bodies : List Body) (dt : ℝ) (steps k : ℕ)
    (hk : k < steps) (hM : totalMass bodies ≠ 0) :
    ∑ i ∈ Finset.range bodies.length,
        (bodies.getD i dummyBody).mass •
          (((simLoop dt (omegaRun bodies dt) (totalMass bodies)
              (halfKick bodies dt) steps).2.1.getD k []).getD i 0)
      = (0 : Vec3) := by
  have hlen : (integrateIter dt (omegaRun bodies dt) (halfKick bodies dt) k).length
      = bodies.length := by
    rw [integrateIter_length, halfKick_length]
  rw [simLoop_cm_getD dt (omegaRun bodies dt) (totalMass bodies) steps k
    (halfKick bodies dt) hk]
  set st := integrateIter dt (omegaRun bodies dt) (halfKick bodies dt) k with hst
  have hstep : ∀ i ∈ Finset.range bodies.length,
      (bodies.getD i dummyBody).mass •
          ((st.map (fun b => b.position - cmPos st (totalMass bodies))).getD i 0)
        = (st.getD i dummyBody).mass •
            ((st.getD i dummyBody).position - cmPos st (totalMass bodies)) := by
    intro i hi
    have hib : i < bodies.length := Finset.mem_range.mp hi
    have hi' : i < st.length := by rw [hlen]; exact hib
    rw [getD_map_lt _ st hi' dummyBody]
    have hmass : (st.getD i dummyBody).mass = (bodies.getD i dummyBody).mass := by
      rw [hst, integrateIter_getD_mass dt (omegaRun bodies dt) (halfKick bodies dt) k
        (by rw [halfKick_length]; exact hib), halfKick_getD_mass bodies dt hib]
    rw [hmass]
  rw [Finset.sum_congr rfl hstep,
    show Finset.range bodies.length = Finset.range st.length by rw [hlen]]
  exact masswt_snapCM_sum_zero st (totalMass bodies) hM
    (by rw [hst, totalMass_integrateIter, totalMass_halfKick])

theorem c7_witness :
    ∑ i ∈ Finset.range wBodies.length,
        (wBodies.getD i dummyBody).mass •
          (((simLoop 1 (omegaRun wBodies 1) (totalMass wBodies)
              (halfKick wBodies 1) 1).2.1.getD 0 []).getD i 0)
      = (0 : Vec3) :=
  c7_cm_reduction wBodies 1 1 0 (by norm_num)
    (by norm_num [totalMass, wBodies, wBodyA, wBodyB])

/-- C9: a rotating-frame run with at least two bodies derives its frame
angular velocity exactly once, before the stepping loop, from the bodies at
indices 0 and 1, as `(0, 0, sqrt(G*(m1+m2)/r^3))` with `r` their separation
at that moment (the half-kick leaves positions and masses unchanged, so
this equals the value at the original configuration), and the whole
trajectory is generated with this one constant vector. -/
theorem c9_omega_once (bodies : List Body) (dt : ℝ) (steps : ℕ)
    (h2 : 2 ≤ bodies.length) :
    (solve_n_body_problem bodies dt steps).1
      = some (flattenTraj
          ((simLoop dt (omegaVec (bodies.getD 0 dummyBody) (bodies.getD 1 dummyBody))
            (totalMass bodies) (halfKick bodies dt) steps).2.1))
    ∧ omegaVec (bodies.getD 0 dummyBody) (bodies.getD 1 dummyBody)
      = ![0, 0, Real.sqrt (1 * ((bodies.getD 0 dummyBody).mass
            + (bodies.getD 1 dummyBody).mass)
          / norm3 ((bodies.getD 0 dummyBody).position
            - (bodies.getD 1 dummyBody).position) ^ 3)] := by
  have h0 : (0 : ℕ) < bodies.length := by omega
  have h1 : (1 : ℕ) < bodies.length := by omega
  have homega : omegaRun bodies dt
      = omegaVec (bodies.getD 0 dummyBody) (bodies.getD 1 dummyBody) := by
    unfold omegaRun omegaVec
    rw [halfKick_getD_mass bodies dt h0, halfKick_getD_mass bodies dt h1,
      halfKick_getD_position bodies dt h0, halfKick_getD_position bodies dt h1]
  constructor
  · rw [solve_eq_of_two bodies dt steps h2, homega]
  · rfl

theorem c9_witness :
    (solve_n_body_problem wBodies 1 0).1
      = some (flattenTraj
          ((simLoop 1 (omegaVec (wBodies.getD 0 dummyBody) (wBodies.getD 1 dummyBody))
            (totalMass wBodies) (halfKick wBodies 1) 0).2.1))
    ∧ omegaVec (wBodies.getD 0 dummyBody) (wBodies.getD 1 dummyBody)
      = ![0, 0, Real.sqrt (1 * ((wBodies.getD 0 dummyBody).mass
            + (wBodies.getD 1 dummyBody).mass)
          / norm3 ((wBodies.getD 0 dummyBody).position
            - (wBodies.getD 1 dummyBody).position) ^ 3)] :=
  c9_omega_once wBodies 1 0 (by simp [wBodies])

/-- C10: a rotating-frame run with `steps = 0` returns the empty flat
trajectory and leaves every body's position and mass unchanged, yet still
mutates every body's velocity by the initial half-kick
`(F(x_0)/m) * (dt/2)`. -/
theorem c10_zero_steps (bodies : List Body) (dt : ℝ) (i : ℕ)
    (h2 : 2 ≤ bodies.length)
    (hd : List.Pairwise (fun p q => p.position ≠ q.position) bodies)
    (hi : i < bodies.length) :
    (solve_n_body_problem bodies dt 0).1 = some []
    ∧ (solve_n_body_problem bodies dt 0).2.length = bodies.length
    ∧ ((solve_n_body_problem bodies dt 0).2.getD i dummyBody).position
        = (bodies.getD i dummyBody).position
    ∧ ((solve_n_body_problem bodies dt 0).2.getD i dummyBody).mass
        = (bodies.getD i dummyBody).mass
    ∧ ((solve_n_body_problem bodies dt 0).2.getD i dummyBody).velocity
        = (bodies.getD i dummyBody).velocity
          + fun m => (compute_forces bodies).getD i 0 m /
              (bodies.getD i dummyBody).mass * (dt / 2) := by
  rw [solve_eq_of_two bodies dt 0 h2, simLoop_zero]
  refine ⟨rfl, halfKick_length bodies dt, halfKick_getD_position bodies dt hi,
    halfKick_getD_mass bodies dt hi, ?_⟩
  rw [halfKick_getD bodies dt hi]

theorem c10_witness :
    (solve_n_body_problem wBodies 1 0).1 = some []
    ∧ (solve_n_body_problem wBodies 1 0).2.length = wBodies.length
    ∧ ((solve_n_body_problem wBodies 1 0).2.getD 0 dummyBody).position
        = (wBodies.getD 0 dummyBody).position
    ∧ ((solve_n_body_problem wBodies 1 0).2.getD 0 dummyBody).mass
        = (wBodies.getD 0 dummyBody).mass
    ∧ ((solve_n_body_problem wBodies 1 0).2.getD 0 dummyBody).velocity
        = (wBodies.getD 0 dummyBody).velocity
          + fun m => (compute_forces wBodies).getD 0 0 m /
              (wBodies.getD 0 dummyBody).mass * (1 / 2) :=
  c10_zero_steps wBodies 1 0 (by simp [wBodies]) wBodies_pairwise (by simp [wBodies])

/-- C5: the analyzer finds the strictly-interior strict local minima of the
separation-distance sequence in increasing order of index; with at least two
of them it reports `dt * (second index - first index)`, with fewer it
reports the absence of a result (`none`) instead of failing. -/
theorem c5_period_from_minima (r_arr : List (List Vec3)) (dt : ℝ) :
    (argrelextremaLess (bodyDistances r_arr)).Sorted (· < ·)
    ∧ (∀ i, i ∈ argrelextremaLess (bodyDistances r_arr)
        ↔ isStrictLocalMin (bodyDistances r_arr) i)
    ∧ compute_2_body_period r_arr dt
        = (if 2 ≤ (argrelextremaLess (bodyDistances r_arr)).length then
            some (dt * (((argrelextremaLess (bodyDistances r_arr)).getD 1 0 : ℝ)
              - ((argrelextremaLess (bodyDistances r_arr)).getD 0 0 : ℝ)))
          else none) := by
  refine ⟨argrelextremaLess_sorted _, fun i => argrelextremaLess_mem _ i, ?_⟩
  unfold compute_2_body_period
  by_cases h : 1 < (argrelextremaLess (bodyDistances r_arr)).length
  · rw [if_pos h, if_pos (show 2 ≤ _ from h)]
    congr 1
    push_cast
    ring
  · rw [if_neg h, if_neg (show ¬ 2 ≤ _ from h)]

/-- C6: striding through the flattened trajectory with stride `3n` at
offset `3b + a` recovers exactly the axis-`a` coordinate series of body `b`;
over all bodies and axes this reconstructs the trajectory. -/
theorem c6_extract_roundtrip (T : List (List Vec3)) (n b a : ℕ)
    (hw : ∀ s ∈ T, s.length = n) (hb : b < n) (ha : a < 3) :
    extract_axis (flattenTraj T) n b a
      = T.map (fun snap => snap.getD b 0 ⟨a, ha⟩) := by
  have hc : 3 * b + a < 3 * n := by omega
  have main : ∀ U : List (List Vec3), (∀ s ∈ U, s.length = n) →
      extract_axis (flattenTraj U) n b a
        = U.map (fun snap => snap.getD b 0 ⟨a, ha⟩) := by
    intro U
    induction U with
    | nil => intro _; rfl
    | cons S U ih =>
      intro hwU
      have hS : S.length = n := hwU S (List.mem_cons_self S U)
      have hU : ∀ s ∈ U, s.length = n := fun s hs => hwU s (List.mem_cons_of_mem S hs)
      rw [flattenTraj_cons]
      unfold extract_axis
      rw [List.length_append, snapFlat_length, hS, selIdx_add _ _ _ hc]
      simp only [List.map_cons, List.map_map]
      congr 1
      · rw [List.getD_append _ _ _ _ (by rw [snapFlat_length, hS]; exact hc)]
        exact snapFlat_getD S b a ha (by rw [hS]; exact hb)
      · have hfun : ((fun j => ((S.map (fun v => [v 0, v 1, v 2])).flatten
              ++ flattenTraj U).getD j 0) ∘ fun j => 3 * n + j)
            = fun j => (flattenTraj U).getD j 0 := by
          funext j
          simp only [Function.comp_apply]
          rw [List.getD_append_right _ _ _ _ (by rw [snapFlat_length, hS]; omega),
            snapFlat_length, hS, Nat.add_sub_cancel_left]
        rw [hfun]
        have hrec := ih hU
        unfold extract_axis at hrec
        exact hrec
  exact main T hw

theorem c6_witness :
    extract_axis (flattenTraj wTraj) 2 1 2
      = wTraj.map (fun snap => snap.getD 1 0 ⟨2, by norm_num⟩) :=
  c6_extract_roundtrip wTraj 2 1 2
    (by
      intro s hs
      simp only [wTraj, List.mem_singleton] at hs
      subst hs
      rfl)
    (by norm_num) (by norm_num)

/-- C2 as stated is false at one body: the run aborts with an index error
while deriving the angular velocity (modelled by `none`) instead of
returning a flat sequence of length `steps * 1 * 3 = 3`. -/
theorem c2_counterexample : (solve_n_body_problem c2Solo 1 1).1 = none := by
  rw [solve_eq_of_lt_two c2Solo 1 1 (by simp [c2Solo])]

/-- C2 (amended to two or more bodies): the run returns a flat sequence of
length `steps * n * 3`, laid out row-major in (step, body, axis) order, whose
entries are the centre-of-mass-frame positions of the recorded trajectory. -/
theorem c2_flat_layout (bodies : List Body) (dt : ℝ) (steps : ℕ)
    (h2 : 2 ≤ bodies.length) (hdt : 0 < dt) :
    (solve_n_body_problem bodies dt steps).1
      = some (flattenTraj ((List.range steps).map (fun k =>
          (integrateIter dt (omegaRun bodies dt) (halfKick bodies dt) k).map
            (fun b => b.position
              - cmPos (integrateIter dt (omegaRun bodies dt) (halfKick bodies dt) k)
                  (totalMass bodies)))))
    ∧ ((solve_n_body_problem bodies dt steps).1.getD []).length
        = steps * bodies.length * 3 := by
  have hwf : ∀ s ∈ (simLoop dt (omegaRun bodies dt) (totalMass bodies)
      (halfKick bodies dt) steps).2.1, s.length = bodies.length := by
    intro s hs
    rw [simLoop_cm_mem_length dt (omegaRun bodies dt) (totalMass bodies) steps
      (halfKick bodies dt) s hs, halfKick_length]
  have hTlen : (simLoop dt (omegaRun bodies dt) (totalMass bodies)
      (halfKick bodies dt) steps).2.1.length = steps :=
    simLoop_cm_length dt (omegaRun bodies dt) (totalMass bodies) steps (halfKick bodies dt)
  rw [solve_eq_of_two bodies dt steps h2]
  constructor
  · rw [simLoop_cm_unfold dt (omegaRun bodies dt) (totalMass bodies) steps
      (halfKick bodies dt)]
  · show (flattenTraj ((simLoop dt (omegaRun bodies dt) (totalMass bodies)
        (halfKick bodies dt) steps).2.1)).length = steps * bodies.length * 3
    rw [flattenTraj_length _ hwf, hTlen]
    ring

theorem c2_witness :
    (solve_n_body_problem wBodies 1 1).1
      = some (flattenTraj ((List.range 1).map (fun k =>
          (integrateIter 1 (omegaRun wBodies 1) (halfKick wBodies 1) k).map
            (fun b => b.position
              - cmPos (integrateIter 1 (omegaRun wBodies 1) (halfKick wBodies 1) k)
                  (totalMass wBodies)))))
    ∧ ((solve_n_body_problem wBodies 1 1).1.getD []).length = 1 * wBodies.length * 3 :=
  c2_flat_layout wBodies 1 1 (by simp [wBodies]) (by norm_num)

/-- C3 as stated is false: with a negative mass and a non-positive `dt` the
run signals no error at all; it steps and returns a six-entry flat
trajectory. -/
theorem c3_counterexample :
    (solve_n_body_problem c3Bad (-1) 1).1.isSome = true
    ∧ ((solve_n_body_problem c3Bad (-1) 1).1.getD []).length = 6 := by
  have h2 : 2 ≤ c3Bad.length := by simp [c3Bad]
  rw [solve_eq_of_two c3Bad (-1) 1 h2]
  refine ⟨rfl, ?_⟩
  show (flattenTraj ((simLoop (-1) (omegaRun c3Bad (-1)) (totalMass c3Bad)
      (halfKick c3Bad (-1)) 1).2.1)).length = 6
  have hwf : ∀ s ∈ (simLoop (-1) (omegaRun c3Bad (-1)) (totalMass c3Bad)
      (halfKick c3Bad (-1)) 1).2.1, s.length = c3Bad.length := by
    intro s hs
    rw [simLoop_cm_mem_length (-1) (omegaRun c3Bad (-1)) (totalMass c3Bad) 1
      (halfKick c3Bad (-1)) s hs, halfKick_length]
  rw [flattenTraj_length _ hwf,
    simLoop_cm_length (-1) (omegaRun c3Bad (-1)) (totalMass c3Bad) 1 (halfKick c3Bad (-1))]
  simp [c3Bad]

/-- C3 (amended): the source performs no configuration validation at all.
The run aborts (with an index error, before any step is recorded) exactly
when fewer than two bodies are supplied — though the initial half-kick has
already mutated the bodies by then; with two or more bodies it proceeds
normally whatever the masses and `dt`, zero, negative or otherwise. -/
theorem c3_no_validation (bodies : List Body) (dt : ℝ) (steps : ℕ) :
    (solve_n_body_problem bodies dt steps).1.isSome = decide (2 ≤ bodies.length)
    ∧ (solve_n_body_problem bodies dt steps).2
        = if 2 ≤ bodies.length
          then (simLoop dt (omegaRun bodies dt) (totalMass bodies)
              (halfKick bodies dt) steps).2.2
          else halfKick bodies dt := by
  by_cases h : 2 ≤ bodies.length
  · rw [solve_eq_of_two bodies dt steps h, if_pos h]
    exact ⟨by simp [h], rfl⟩
  · rw [solve_eq_of_lt_two bodies dt steps (by omega), if_neg h]
    exact ⟨by simp [h], rfl⟩
